import Mathlib

/-!
Verification of the PriceGhost price-intelligence core against its source.

The embedding below translates, function by function, the Python modules
`bot/services/fake_discount.py`, `bot/services/price_history.py`,
`bot/services/monitor_scheduler.py` and `database/db.py` into Lean.
Prices and timestamps are modelled over `ℚ` (timestamps measured in days);
calendar datetimes for the quota logic are modelled as day/time-of-day pairs
over `ℤ`.  Every Python division that could raise `ZeroDivisionError` is
translated as a checked division returning `Option`, so that "the code never
divides by zero" is the statement that the embedded function returns `some`.
-/

namespace PriceGhost

/-- Checked division: `none` exactly when Python `/` would raise
`ZeroDivisionError`. -/
def cdiv (a b : ℚ) : Option ℚ := if b = 0 then none else some (a / b)

theorem cdiv_pos (a b : ℚ) (hb : 0 < b) : cdiv a b = some (a / b) := by
  simp [cdiv, ne_of_gt hb]

theorem cdiv_isSome_of_ne (a b : ℚ) (hb : b ≠ 0) : (cdiv a b).isSome = true := by
  simp [cdiv, hb]

/-! ## Fake-discount detector (`bot/services/fake_discount.py`) -/

/-- One row of `price_records` as consumed by the detector:
`price` and `recorded_at` (timestamp in days). -/
structure FDRecord where
  price : ℚ
  recorded_at : ℚ
deriving DecidableEq

/-- Python `[r.price for r in records if r.price > 0]`. -/
def posPrices (records : List FDRecord) : List ℚ :=
  (records.filter (fun r => 0 < r.price)).map (fun r => r.price)

/-- Python `[r for r in records if r.recorded_at >= cutoff]` with
`cutoff = now - lookback_days` and `lookback_days = 60`. -/
def recentRecords (now : ℚ) (records : List FDRecord) : List FDRecord :=
  records.filter (fun r => now - 60 ≤ r.recorded_at)

/-- The dict returned by `_detect_price_markup` on success. -/
structure MarkupInfo where
  markup_percent : ℚ
  from_price : ℚ
  to_price : ℚ
deriving DecidableEq

/-- The scan loop of `_detect_price_markup`: walks consecutive pairs keeping
the largest rise (with its endpoints); the accumulators start at `0`. -/
def scanRises (maxRise fromPrice toPrice : ℚ) :
    List ℚ → Option (ℚ × ℚ × ℚ)
  | p1 :: p2 :: rest =>
    if 0 < p1 then do
      let q ← cdiv (p2 - p1) p1
      let rise := q * 100
      if maxRise < rise then scanRises rise p1 p2 (p2 :: rest)
      else scanRises maxRise fromPrice toPrice (p2 :: rest)
    else scanRises maxRise fromPrice toPrice (p2 :: rest)
  | _ => some (maxRise, fromPrice, toPrice)

/-- Embedding of `_detect_price_markup(records, lookback_days=60)`.  The outer `Option`
is `none` only on a zero division (never happens); the inner `Option` is the
Python return value (`None` = no markup found). -/
def detectPriceMarkup (now : ℚ) (records : List FDRecord) :
    Option (Option MarkupInfo) :=
  if records.length < 3 then some none
  else
    let recent := recentRecords now records
    if recent.length < 3 then some none
    else
      let prices := posPrices recent
      if prices.length < 3 then some none
      else do
        let (maxRise, fromPrice, toPrice) ← scanRises 0 0 0 prices
        if 15 < maxRise then some (some ⟨maxRise, fromPrice, toPrice⟩)
        else some none

/-- Which verdict template `analyze_fake_discount` chooses (one constructor
per verdict string in the source). -/
inductive VerdictKind where
  | insufficientData
  | noPrices
  | fakeFull
  | fakeExaggerated
  | genuine
  | partlyGenuine
  | noClaimFloor
  | noClaimCeiling
  | noClaimNormal
deriving DecidableEq

/-- The fields of the result dict of `analyze_fake_discount` that carry the
classification (presentation-only fields such as the rounded `real_discount`
and the verdict strings are represented by the raw value and the
`VerdictKind` tag). -/
structure FDResult where
  is_fake : Bool
  confidence : ℕ
  verdict : VerdictKind
  real_discount : ℚ
  fake_markup : ℚ
  history_min : Option ℚ
  history_avg : Option ℚ
  history_max : Option ℚ
deriving DecidableEq

/-- Python `min` on a list known to be non-empty (the `0` default is dead
code behind the emptiness guard). -/
def pyMin : List ℚ → ℚ
  | [] => 0
  | p :: ps => ps.foldl min p

/-- Python `max` on a list known to be non-empty. -/
def pyMax : List ℚ → ℚ
  | [] => 0
  | p :: ps => ps.foldl max p

/-- Embedding of `analyze_fake_discount(product_id, current_price, original_price)` after
the history pull: `records` is the list returned by
`get_price_history(product_id, days=180)` (chronological order).  Returns
`none` only if a division by zero would occur. -/
def analyzeFakeDiscount (now current_price original_price : ℚ)
    (records : List FDRecord) : Option FDResult :=
  if records.length < 2 then
    some { is_fake := false, confidence := 0, verdict := .insufficientData,
           real_discount := 0, fake_markup := 0,
           history_min := none, history_avg := none, history_max := none }
  else
    let prices := posPrices records
    if prices = [] then
      some { is_fake := false, confidence := 0, verdict := .noPrices,
             real_discount := 0, fake_markup := 0,
             history_min := none, history_avg := none, history_max := none }
    else do
      let history_min := pyMin prices
      let history_max := pyMax prices
      let history_avg ← cdiv prices.sum (prices.length : ℚ)
      if 0 < original_price ∧ current_price < original_price then do
        let _claimed_discount ←
          (cdiv (original_price - current_price) original_price).map (· * 100)
        let real_from_avg ←
          if 0 < history_avg then
            (cdiv (history_avg - current_price) history_avg).map (· * 100)
          else some 0
        let _real_from_min ←
          if 0 < history_min then
            (cdiv (history_min - current_price) history_min).map (· * 100)
          else some 0
        if history_avg * (95 / 100) ≤ current_price then do
          let markup ← detectPriceMarkup now records
          some { is_fake := true,
                 confidence := match markup with | some _ => 95 | none => 85,
                 verdict := if history_avg ≤ current_price then .fakeFull
                            else .fakeExaggerated,
                 real_discount := real_from_avg,
                 fake_markup := match markup with
                                | some m => m.markup_percent
                                | none => 0,
                 history_min := some history_min,
                 history_avg := some history_avg,
                 history_max := some history_max }
        else if current_price ≤ history_min * (105 / 100) then
          some { is_fake := false, confidence := 80, verdict := .genuine,
                 real_discount := real_from_avg, fake_markup := 0,
                 history_min := some history_min,
                 history_avg := some history_avg,
                 history_max := some history_max }
        else
          some { is_fake := false, confidence := 60, verdict := .partlyGenuine,
                 real_discount := real_from_avg, fake_markup := 0,
                 history_min := some history_min,
                 history_avg := some history_avg,
                 history_max := some history_max }
      else
        some { is_fake := false, confidence := 0,
               verdict := if current_price ≤ history_min * (105 / 100) then
                            .noClaimFloor
                          else if history_max * (95 / 100) ≤ current_price then
                            .noClaimCeiling
                          else .noClaimNormal,
               real_discount := 0, fake_markup := 0,
               history_min := some history_min,
               history_avg := some history_avg,
               history_max := some history_max }

/-! ### Helper lemmas about the markup scan -/

theorem posPrices_pos (records : List FDRecord) : ∀ x ∈ posPrices records, 0 < x := by
  intro x hx
  simp only [posPrices, List.mem_map, List.mem_filter] at hx
  obtain ⟨r, ⟨_, hr⟩, rfl⟩ := hx
  exact of_decide_eq_true hr

theorem scanRises_isSome (l : List ℚ) : ∀ maxRise fromPrice toPrice,
    (scanRises maxRise fromPrice toPrice l).isSome = true := by
  induction l with
  | nil => intro mr f t; simp [scanRises]
  | cons p rest ih =>
    intro mr f t
    cases rest with
    | nil => simp [scanRises]
    | cons q rest' =>
      simp only [scanRises]
      by_cases hp : 0 < p
      · rw [if_pos hp, cdiv_pos _ _ hp]
        simp only [Option.bind_eq_bind, Option.some_bind]
        by_cases hr : mr < (q - p) / p * 100
        · rw [if_pos hr]; exact ih ..
        · rw [if_neg hr]; exact ih ..
      · rw [if_neg hp]; exact ih ..

/-- Spec-side reading of the markup scan: some consecutive pair of the
price list rises by strictly more than 15%. -/
def hasBigRise : List ℚ → Bool
  | p :: q :: rest => decide (15 < (q - p) / p * 100) || hasBigRise (q :: rest)
  | _ => false

theorem scanRises_spec (l : List ℚ) : ∀ maxRise fromPrice toPrice m fp tp,
    (∀ x ∈ l, 0 < x) →
    scanRises maxRise fromPrice toPrice l = some (m, fp, tp) →
    (15 < m ↔ 15 < maxRise ∨ hasBigRise l = true) := by
  induction l with
  | nil =>
    intro mr f t m fp tp _ h
    simp only [scanRises, Option.some.injEq, Prod.mk.injEq] at h
    obtain ⟨rfl, rfl, rfl⟩ := h
    simp [hasBigRise]
  | cons p rest ih =>
    intro mr f t m fp tp hall h
    cases rest with
    | nil =>
      simp only [scanRises, Option.some.injEq, Prod.mk.injEq] at h
      obtain ⟨rfl, rfl, rfl⟩ := h
      simp [hasBigRise]
    | cons q rest' =>
      have hp : 0 < p := hall p (by simp)
      have hall' : ∀ x ∈ q :: rest', 0 < x := fun x hx => hall x (by simp [hx])
      simp only [scanRises, if_pos hp, cdiv_pos _ _ hp, Option.bind_eq_bind,
        Option.some_bind] at h
      by_cases hr : mr < (q - p) / p * 100
      · rw [if_pos hr] at h
        rw [ih _ _ _ _ _ _ hall' h]
        have himp : 15 < mr → 15 < (q - p) / p * 100 := fun h15 => lt_trans h15 hr
        simp only [hasBigRise, Bool.or_eq_true, decide_eq_true_eq]
        tauto
      · rw [if_neg hr] at h
        rw [ih _ _ _ _ _ _ hall' h]
        have himp : 15 < (q - p) / p * 100 → 15 < mr :=
          fun h15 => lt_of_lt_of_le h15 (not_lt.mp hr)
        simp only [hasBigRise, Bool.or_eq_true, decide_eq_true_eq]
        tauto

/-- Spec-side condition under which `_detect_price_markup` reports a markup:
the sample-size guards of the source plus a consecutive-pair rise above 15%
among the positive prices of the 60-day lookback. -/
def markupPrecursorFires (now : ℚ) (records : List FDRecord) : Prop :=
  3 ≤ records.length ∧ 3 ≤ (recentRecords now records).length ∧
  3 ≤ (posPrices (recentRecords now records)).length ∧
  hasBigRise (posPrices (recentRecords now records)) = true

instance (now : ℚ) (records : List FDRecord) :
    Decidable (markupPrecursorFires now records) := by
  unfold markupPrecursorFires; infer_instance

theorem detectPriceMarkup_spec (now : ℚ) (records : List FDRecord) :
    ∃ r, detectPriceMarkup now records = some r ∧
      (r.isSome = true ↔ markupPrecursorFires now records) := by
  unfold detectPriceMarkup markupPrecursorFires
  by_cases h1 : records.length < 3
  · refine ⟨none, by rw [if_pos h1], ?_⟩
    simp only [Option.isSome_none, Bool.false_eq_true, false_iff]
    rintro ⟨ha, -⟩; omega
  · rw [if_neg h1]
    by_cases h2 : (recentRecords now records).length < 3
    · refine ⟨none, by rw [if_pos h2], ?_⟩
      simp only [Option.isSome_none, Bool.false_eq_true, false_iff]
      rintro ⟨-, hb, -⟩; omega
    · rw [if_neg h2]
      by_cases h3 : (posPrices (recentRecords now records)).length < 3
      · refine ⟨none, by rw [if_pos h3], ?_⟩
        simp only [Option.isSome_none, Bool.false_eq_true, false_iff]
        rintro ⟨-, -, hc, -⟩; omega
      · rw [if_neg h3]
        have hall : ∀ x ∈ posPrices (recentRecords now records), 0 < x :=
          posPrices_pos _
        obtain ⟨⟨m, fp, tp⟩, hscan⟩ :=
          Option.isSome_iff_exists.mp
            (scanRises_isSome (posPrices (recentRecords now records)) 0 0 0)
        have hiff := scanRises_spec _ 0 0 0 m fp tp hall hscan
        rw [hscan]
        simp only [Option.bind_eq_bind, Option.some_bind]
        by_cases hm : 15 < m
        · refine ⟨some ⟨m, fp, tp⟩, by rw [if_pos hm], ?_⟩
          have hbig : hasBigRise (posPrices (recentRecords now records)) = true := by
            rcases hiff.mp hm with h | h
            · exact absurd h (by norm_num)
            · exact h
          simp only [Option.isSome_some, true_iff]
          exact ⟨by omega, by omega, by omega, hbig⟩
        · refine ⟨none, by rw [if_neg hm], ?_⟩
          simp only [Option.isSome_none, Bool.false_eq_true, false_iff]
          rintro ⟨-, -, -, hbig⟩
          exact hm (hiff.mpr (Or.inr hbig))

theorem foldl_min_pos (p : ℚ) (ps : List ℚ) (hp : 0 < p) (hps : ∀ x ∈ ps, 0 < x) :
    0 < ps.foldl min p := by
  induction ps generalizing p with
  | nil => exact hp
  | cons q rest ih =>
    exact ih (min p q) (lt_min hp (hps q (by simp)))
      (fun x hx => hps x (by simp [hx]))

theorem posPrices_sum_pos (p : ℚ) (ps : List ℚ) (hp : 0 < p)
    (hps : ∀ x ∈ ps, 0 < x) : 0 < ((p :: ps).sum : ℚ) / ((p :: ps).length : ℚ) := by
  apply div_pos
  · refine List.sum_pos _ (fun x hx => ?_) (by simp)
    rcases List.mem_cons.mp hx with rfl | hx'
    · exact hp
    · exact hps x hx'
  · exact_mod_cast Nat.succ_pos ps.length

/-- C1 (amended): for every evaluation by the fake-discount detector where
the pulled 180-day history has at least 2 records and at least one positive
price, and the claimed original price is positive and strictly above the
current price, the verdict follows the ordered first-match rule: if
`current ≥ history_avg * 0.95` then `is_fake = true` with confidence 85,
escalated to 95 exactly when the markup detector fires (which requires at
least 3 history records, at least 3 of them within the last 60 days with at
least 3 positive prices among them, and a consecutive-pair rise above 15%
among those positive prices); else if `current ≤ history_min * 1.05` then
`is_fake = false` with confidence 80; else `is_fake = false` with
confidence 60 — where `history_avg` and `history_min` are the mean and
minimum of the positive prices of the window. -/
theorem C1_fake_discount_cascade (now current_price original_price : ℚ)
    (records : List FDRecord)
    (hlen : 2 ≤ records.length) (hpos : posPrices records ≠ [])
    (ho : 0 < original_price) (hoc : current_price < original_price) :
    ∃ res, analyzeFakeDiscount now current_price original_price records = some res ∧
      ∃ m, (posPrices records).min? = some m ∧
        (if (posPrices records).sum / ((posPrices records).length : ℚ) * (95 / 100)
             ≤ current_price then
           res.is_fake = true ∧
           res.confidence = if markupPrecursorFires now records then 95 else 85
         else if current_price ≤ m * (105 / 100) then
           res.is_fake = false ∧ res.confidence = 80
         else
           res.is_fake = false ∧ res.confidence = 60) := by
  cases hpp : posPrices records with
  | nil => exact absurd hpp hpos
  | cons p ps =>
    have hppos : 0 < p := posPrices_pos records p (by rw [hpp]; simp)
    have hpsall : ∀ x ∈ ps, 0 < x := fun x hx =>
      posPrices_pos records x (by rw [hpp]; simp [hx])
    have hlen' : ¬records.length < 2 := by omega
    have hlq : (0 : ℚ) < ((p :: ps).length : ℚ) := by
      exact_mod_cast Nat.succ_pos ps.length
    have havg : 0 < ((p :: ps).sum : ℚ) / ((p :: ps).length : ℚ) :=
      posPrices_sum_pos p ps hppos hpsall
    have hmin : 0 < ps.foldl min p := foldl_min_pos p ps hppos hpsall
    unfold analyzeFakeDiscount
    rw [if_neg hlen']
    simp only [hpp, pyMin, pyMax]
    rw [if_neg (show ¬(p :: ps = []) by simp), cdiv_pos _ _ hlq]
    simp only [Option.bind_eq_bind, Option.some_bind]
    rw [if_pos ⟨ho, hoc⟩, cdiv_pos _ _ ho]
    simp only [Option.map_some', Option.bind_eq_bind, Option.some_bind]
    rw [if_pos havg, cdiv_pos _ _ havg]
    simp only [Option.map_some', Option.bind_eq_bind, Option.some_bind]
    rw [if_pos hmin, cdiv_pos _ _ hmin]
    simp only [Option.map_some', Option.bind_eq_bind, Option.some_bind]
    by_cases hc1 :
        ((p :: ps).sum : ℚ) / ((p :: ps).length : ℚ) * (95 / 100) ≤ current_price
    · rw [if_pos hc1]
      obtain ⟨r, hdet, hiffm⟩ := detectPriceMarkup_spec now records
      rw [hdet]
      simp only [Option.bind_eq_bind, Option.some_bind]
      refine ⟨_, rfl, ps.foldl min p, rfl, ?_⟩
      rw [if_pos hc1]
      refine ⟨rfl, ?_⟩
      cases r with
      | none =>
        have hnf : ¬markupPrecursorFires now records := by
          intro hf
          simp only [Option.isSome_none, Bool.false_eq_true, false_iff] at hiffm
          exact hiffm hf
        rw [if_neg hnf]
      | some mi =>
        have hf : markupPrecursorFires now records := hiffm.mp (by simp)
        rw [if_pos hf]
    · rw [if_neg hc1]
      by_cases hc2 : current_price ≤ ps.foldl min p * (105 / 100)
      · rw [if_pos hc2]
        refine ⟨_, rfl, ps.foldl min p, rfl, ?_⟩
        rw [if_neg hc1, if_pos hc2]
        exact ⟨rfl, rfl⟩
      · rw [if_neg hc2]
        refine ⟨_, rfl, ps.foldl min p, rfl, ?_⟩
        rw [if_neg hc1, if_neg hc2]
        exact ⟨rfl, rfl⟩

/-- C1 witness: the cascade theorem applied to the history 100→130 with
current price 120 and claimed original price 200. -/
theorem C1_fake_discount_cascade_witness :
    ∃ res, analyzeFakeDiscount 0 120 200 [⟨100, -10⟩, ⟨130, -5⟩] = some res ∧
      ∃ m, (posPrices [⟨100, -10⟩, ⟨130, -5⟩]).min? = some m ∧
        (if (posPrices [⟨100, -10⟩, ⟨130, -5⟩]).sum /
              ((posPrices [⟨100, -10⟩, ⟨130, -5⟩]).length : ℚ) * (95 / 100)
             ≤ 120 then
           res.is_fake = true ∧
           res.confidence =
             if markupPrecursorFires 0 [⟨100, -10⟩, ⟨130, -5⟩] then 95 else 85
         else if 120 ≤ m * (105 / 100) then
           res.is_fake = false ∧ res.confidence = 80
         else
           res.is_fake = false ∧ res.confidence = 60) :=
  C1_fake_discount_cascade 0 120 200 [⟨100, -10⟩, ⟨130, -5⟩]
    (by norm_num) (by simp [posPrices, List.filter]) (by norm_num) (by norm_num)

/-- C1 counterexample: a two-record history 100→130 sitting entirely inside
the 60-day lookback is a consecutive-pair rise of 30% > 15%, so the claim's
definition of a markup precursor holds and the claim demands confidence 95;
but `_detect_price_markup` refuses histories of fewer than 3 records, and
`analyze_fake_discount` returns confidence 85. -/
theorem C1_claim_counterexample :
    2 ≤ ([⟨100, -10⟩, ⟨130, -5⟩] : List FDRecord).length ∧
    hasBigRise (posPrices (recentRecords 0 [⟨100, -10⟩, ⟨130, -5⟩])) = true ∧
    (posPrices [⟨100, -10⟩, ⟨130, -5⟩]).sum /
        ((posPrices [⟨100, -10⟩, ⟨130, -5⟩]).length : ℚ) * (95 / 100) ≤ 120 ∧
    analyzeFakeDiscount 0 120 200 [⟨100, -10⟩, ⟨130, -5⟩] =
      some { is_fake := true, confidence := 85, verdict := .fakeFull,
             real_discount := (115 - 120) / 115 * 100, fake_markup := 0,
             history_min := some 100, history_avg := some 115,
             history_max := some 130 } := by
  refine ⟨by norm_num, ?_, by norm_num [posPrices, List.filter], ?_⟩
  · norm_num [hasBigRise, posPrices, recentRecords, List.filter]
  · norm_num [analyzeFakeDiscount, posPrices, detectPriceMarkup, cdiv,
      List.filter, recentRecords, pyMin, pyMax]
    simp

/-- C7 (amended): if the pulled history has fewer than 2 records, or none of
its records carries a positive price, the detector returns the neutral
insufficient-data verdict — `is_fake = false`, confidence 0, no history
statistics — and no genuine/fake/partial classification is attempted. -/
theorem C7_insufficient_data (now current_price original_price : ℚ)
    (records : List FDRecord)
    (h : records.length < 2 ∨ posPrices records = []) :
    ∃ res, analyzeFakeDiscount now current_price original_price records = some res ∧
      res.is_fake = false ∧ res.confidence = 0 ∧
      (res.verdict = .insufficientData ∨ res.verdict = .noPrices) ∧
      res.history_min = none ∧ res.history_avg = none ∧ res.history_max = none := by
  unfold analyzeFakeDiscount
  by_cases h2 : records.length < 2
  · rw [if_pos h2]
    exact ⟨_, rfl, rfl, rfl, Or.inl rfl, rfl, rfl, rfl⟩
  · rcases h with h | h
    · omega
    · rw [if_neg h2]
      simp only [h]
      rw [if_pos trivial]
      exact ⟨_, rfl, rfl, rfl, Or.inr rfl, rfl, rfl, rfl⟩

/-- C7 witness: the amended theorem applied to an empty history. -/
theorem C7_insufficient_data_witness :
    ∃ res, analyzeFakeDiscount 0 100 200 ([] : List FDRecord) = some res ∧
      res.is_fake = false ∧ res.confidence = 0 ∧
      (res.verdict = .insufficientData ∨ res.verdict = .noPrices) ∧
      res.history_min = none ∧ res.history_avg = none ∧ res.history_max = none :=
  C7_insufficient_data 0 100 200 [] (Or.inl (by norm_num))

/-- C7 counterexample: two history records of which only one has a positive
price — fewer than 2 positive snapshots, so the claim demands the neutral
verdict with confidence 0 — but the source only rejects histories with fewer
than 2 records (of any price) or no positive price at all, and classifies
this one as fake with confidence 85. -/
theorem C7_claim_counterexample :
    (posPrices [⟨0, -10⟩, ⟨100, -5⟩]).length < 2 ∧
    analyzeFakeDiscount 0 100 200 [⟨0, -10⟩, ⟨100, -5⟩] =
      some { is_fake := true, confidence := 85, verdict := .fakeFull,
             real_discount := 0, fake_markup := 0,
             history_min := some 100, history_avg := some 100,
             history_max := some 100 } := by
  refine ⟨by norm_num [posPrices, List.filter], ?_⟩
  norm_num [analyzeFakeDiscount, posPrices, detectPriceMarkup, cdiv,
    List.filter, recentRecords, pyMin, pyMax]

/-- C8: `analyze_fake_discount` never divides by zero — the embedded
function (whose every division is checked) returns `some` on all inputs —
and with `claimed_original_price = 0` it falls back to the
floor/ceiling-proximity classification of the current price. -/
theorem C8_zero_division_safety :
    (∀ now current_price original_price records,
      (analyzeFakeDiscount now current_price original_price records).isSome
        = true) ∧
    (∀ now current_price records, 2 ≤ records.length → posPrices records ≠ [] →
      ∃ res, analyzeFakeDiscount now current_price 0 records = some res ∧
        (res.verdict = .noClaimFloor ∨ res.verdict = .noClaimCeiling ∨
         res.verdict = .noClaimNormal)) := by
  constructor
  · intro now c o records
    unfold analyzeFakeDiscount
    by_cases h2 : records.length < 2
    · rw [if_pos h2]; rfl
    · rw [if_neg h2]
      cases hpp : posPrices records with
      | nil =>
        simp only [hpp]
        rw [if_pos trivial]; rfl
      | cons p ps =>
        have hppos : 0 < p := posPrices_pos records p (by rw [hpp]; simp)
        have hpsall : ∀ x ∈ ps, 0 < x := fun x hx =>
          posPrices_pos records x (by rw [hpp]; simp [hx])
        have hlq : (0 : ℚ) < ((p :: ps).length : ℚ) := by
          exact_mod_cast Nat.succ_pos ps.length
        have havg : 0 < ((p :: ps).sum : ℚ) / ((p :: ps).length : ℚ) :=
          posPrices_sum_pos p ps hppos hpsall
        have hmin : 0 < ps.foldl min p := foldl_min_pos p ps hppos hpsall
        simp only [hpp, pyMin, pyMax]
        rw [if_neg (show ¬(p :: ps = []) by simp), cdiv_pos _ _ hlq]
        simp only [Option.bind_eq_bind, Option.some_bind]
        by_cases hco : 0 < o ∧ c < o
        · rw [if_pos hco, cdiv_pos _ _ hco.1]
          simp only [Option.map_some', Option.bind_eq_bind, Option.some_bind]
          rw [if_pos havg, cdiv_pos _ _ havg]
          simp only [Option.map_some', Option.bind_eq_bind, Option.some_bind]
          rw [if_pos hmin, cdiv_pos _ _ hmin]
          simp only [Option.map_some', Option.bind_eq_bind, Option.some_bind]
          by_cases hc1 :
              ((p :: ps).sum : ℚ) / ((p :: ps).length : ℚ) * (95 / 100) ≤ c
          · rw [if_pos hc1]
            obtain ⟨r, hdet, -⟩ := detectPriceMarkup_spec now records
            rw [hdet]
            simp
          · rw [if_neg hc1]
            by_cases hc2 : c ≤ ps.foldl min p * (105 / 100)
            · rw [if_pos hc2]; rfl
            · rw [if_neg hc2]; rfl
        · rw [if_neg hco]; rfl
  · intro now c records hlen hpos
    unfold analyzeFakeDiscount
    cases hpp : posPrices records with
    | nil => exact absurd hpp hpos
    | cons p ps =>
      have hppos : 0 < p := posPrices_pos records p (by rw [hpp]; simp)
      have hpsall : ∀ x ∈ ps, 0 < x := fun x hx =>
        posPrices_pos records x (by rw [hpp]; simp [hx])
      have hlq : (0 : ℚ) < ((p :: ps).length : ℚ) := by
        exact_mod_cast Nat.succ_pos ps.length
      rw [if_neg (show ¬records.length < 2 by omega)]
      simp only [hpp, pyMin, pyMax]
      rw [if_neg (show ¬(p :: ps = []) by simp), cdiv_pos _ _ hlq]
      simp only [Option.bind_eq_bind, Option.some_bind]
      rw [if_neg (show ¬((0 : ℚ) < 0 ∧ c < 0) from fun hh => lt_irrefl 0 hh.1)]
      by_cases hc2 : c ≤ ps.foldl min p * (105 / 100)
      · rw [if_pos hc2]
        exact ⟨_, rfl, Or.inl rfl⟩
      · rw [if_neg hc2]
        by_cases hc3 : ps.foldl max p * (95 / 100) ≤ c
        · rw [if_pos hc3]
          exact ⟨_, rfl, Or.inr (Or.inl rfl)⟩
        · rw [if_neg hc3]
          exact ⟨_, rfl, Or.inr (Or.inr rfl)⟩

/-- C8 witness: the second conjunct applied to a concrete two-record history
with `claimed_original_price = 0`. -/
theorem C8_zero_division_safety_witness :
    ∃ res, analyzeFakeDiscount 0 100 0 [⟨100, -10⟩, ⟨130, -5⟩] = some res ∧
      (res.verdict = .noClaimFloor ∨ res.verdict = .noClaimCeiling ∨
       res.verdict = .noClaimNormal) :=
  C8_zero_division_safety.2 0 100 [⟨100, -10⟩, ⟨130, -5⟩]
    (by norm_num) (by simp [posPrices, List.filter])

/-! ## Quota guard (`database/db.py`, `Database.check_and_increment_usage`)
together with `User.active_plan` (`database/models.py`) and `PlanLimits`
(`config.py`). -/

/-- The `PlanType` enum / the stored plan string (unknown strings fall back to FREE
via `PlanLimits.get`, so the closed enum is faithful). -/
inductive Plan where
  | FREE
  | PRO
  | PREMIUM
deriving DecidableEq

/-- The `PlanLimits.<PLAN>["checks_per_day"]` entry per plan. -/
def checksPerDay : Plan → ℕ
  | .FREE => 3
  | .PRO => 30
  | .PREMIUM => 999999

/-- The `PlanLimits.<PLAN>["monitor_items"]` entry per plan. -/
def monitorItems : Plan → ℕ
  | .FREE => 0
  | .PRO => 20
  | .PREMIUM => 50

/-- A `datetime` split into its calendar day and time-of-day
(`.date()` comparison only looks at `day`). -/
structure DateTime where
  day : ℤ
  tod : ℤ
deriving DecidableEq

/-- Strict `datetime` comparison `a < b` (lexicographic). -/
def DateTime.before (a b : DateTime) : Bool :=
  a.day < b.day ∨ (a.day = b.day ∧ a.tod < b.tod)

/-- The `users` row fields read and written by the quota guard. -/
structure DBUser where
  plan : Plan
  plan_expires_at : Option DateTime
  checks_today : ℕ
  checks_reset_date : Option DateTime
deriving DecidableEq

/-- Embedding of `User.active_plan`: the stored plan while `plan_expires_at` lies in the
future, otherwise FREE. -/
def activePlan (u : DBUser) (now : DateTime) : Plan :=
  match u.plan_expires_at with
  | some e => if now.before e then u.plan else .FREE
  | none => .FREE

/-- The day-rollover reset (`db.py` lines 76-79): zero the counter and
restamp the reset-date when it is absent or on an earlier calendar day. -/
def resetIfStaleRow (u : DBUser) (now : DateTime) : DBUser :=
  match u.checks_reset_date with
  | none => { u with checks_today := 0, checks_reset_date := some now }
  | some rd =>
    if rd.day < now.day then
      { u with checks_today := 0, checks_reset_date := some now }
    else u

/-- Embedding of `Database.check_and_increment_usage(telegram_id)`.  The input state is
the stored user row for that id (`none` = no such user); the output is the
returned `(allowed, used, limit)` triple together with the committed row
(the rejection path returns before `session.commit()`, so there the stored
row is unchanged). -/
def checkAndIncrementUsage (st : Option DBUser) (now : DateTime) :
    (Bool × ℕ × ℕ) × Option DBUser :=
  match st with
  | none => ((false, 0, 0), none)
  | some user0 =>
    let user := resetIfStaleRow user0 now
    let maxChecks := checksPerDay (activePlan user now)
    if maxChecks ≤ user.checks_today then
      ((false, user.checks_today, maxChecks), some user0)
    else
      let user' := { user with checks_today := user.checks_today + 1 }
      ((true, user'.checks_today, maxChecks), some user')

/-- The claim's reset condition: stored reset-date absent or on an earlier
calendar day than now. -/
def staleReset (u : DBUser) (now : DateTime) : Prop :=
  u.checks_reset_date = none ∨
    ∃ rd, u.checks_reset_date = some rd ∧ rd.day < now.day

theorem checksPerDay_pos (p : Plan) : 0 < checksPerDay p := by
  cases p <;> simp [checksPerDay]

/-- C2: the quota guard resets a stale counter (absent reset-date or an
earlier calendar day) to 0 and restamps the date before evaluating the
limit — so a stale-day call is always allowed and returns `used = 1`;
a same-day call at or above the limit is rejected with the pre-increment
counter and no stored mutation; a same-day call under the limit increments
first and returns the new counter.  In particular, `checks_today = 3`,
`limit = 3`, `reset_date = yesterday` yields `(allowed = true, used = 1,
limit = 3)`. -/
theorem C2_quota_guard :
    (∀ u : DBUser, ∀ now : DateTime, staleReset u now →
      checkAndIncrementUsage (some u) now =
        ((true, 1, checksPerDay (activePlan u now)),
         some { u with checks_today := 1, checks_reset_date := some now })) ∧
    (∀ u : DBUser, ∀ now rd : DateTime, u.checks_reset_date = some rd →
      ¬rd.day < now.day → checksPerDay (activePlan u now) ≤ u.checks_today →
      checkAndIncrementUsage (some u) now =
        ((false, u.checks_today, checksPerDay (activePlan u now)), some u)) ∧
    (∀ u : DBUser, ∀ now rd : DateTime, u.checks_reset_date = some rd →
      ¬rd.day < now.day → u.checks_today < checksPerDay (activePlan u now) →
      checkAndIncrementUsage (some u) now =
        ((true, u.checks_today + 1, checksPerDay (activePlan u now)),
         some { u with checks_today := u.checks_today + 1 })) := by
  have hstale : ∀ (u : DBUser) (now : DateTime), staleReset u now →
      resetIfStaleRow u now =
        { u with checks_today := 0, checks_reset_date := some now } := by
    intro u now hst
    rcases hst with h | ⟨rd, hrd, hlt⟩
    · simp [resetIfStaleRow, h]
    · simp [resetIfStaleRow, hrd, hlt]
  have hfresh : ∀ (u : DBUser) (now rd : DateTime), u.checks_reset_date = some rd →
      ¬rd.day < now.day → resetIfStaleRow u now = u := by
    intro u now rd hrd hday
    simp [resetIfStaleRow, hrd, hday]
  refine ⟨?_, ?_, ?_⟩
  · intro u now hst
    simp only [checkAndIncrementUsage]
    rw [hstale u now hst]
    have hplan : activePlan { u with checks_today := 0, checks_reset_date := some now } now = activePlan u now := rfl
    simp only [hplan]
    rw [if_neg (Nat.not_le.mpr (checksPerDay_pos (activePlan u now)))]
  · intro u now rd hrd hday hle
    simp only [checkAndIncrementUsage]
    rw [hfresh u now rd hrd hday]
    rw [if_pos hle]
  · intro u now rd hrd hday hlt
    simp only [checkAndIncrementUsage]
    rw [hfresh u now rd hrd hday]
    rw [if_neg (Nat.not_le.mpr hlt)]

/-- C2 witness: a FREE-tier subscriber with `checks_today = 3`, limit 3 and
reset-date on the previous day gets `(true, 1, 3)` and a restamped row. -/
theorem C2_quota_guard_witness :
    checkAndIncrementUsage
        (some { plan := .FREE, plan_expires_at := none, checks_today := 3,
                checks_reset_date := some ⟨0, 0⟩ }) ⟨1, 0⟩ =
      ((true, 1, 3),
       some { plan := .FREE, plan_expires_at := none, checks_today := 1,
              checks_reset_date := some ⟨1, 0⟩ }) :=
  C2_quota_guard.1
    { plan := .FREE, plan_expires_at := none, checks_today := 3,
      checks_reset_date := some ⟨0, 0⟩ } ⟨1, 0⟩
    (Or.inr ⟨⟨0, 0⟩, rfl, by decide⟩)

/-- C10: a quota check for an unknown subscriber returns
`(allowed = false, used = 0, limit = 0)` and leaves the store untouched
(no row is created, nothing raises). -/
theorem C10_unknown_subscriber (now : DateTime) :
    checkAndIncrementUsage none now = ((false, 0, 0), none) := rfl

/-! ## Price ledger statistics (`bot/services/price_history.py`) -/

/-- The 30-day trend computation of `get_price_stats` (lines 91-106):
returns the `(trend, trend_percent)` pair. -/
def trendOf (now : ℚ) (records : List FDRecord) : String × ℚ :=
  let recentRecs := records.filter (fun r => now - 30 ≤ r.recorded_at)
  let recentPrices := (recentRecs.filter (fun r => 0 < r.price)).map (fun r => r.price)
  match recentPrices with
  | f :: p :: ps =>
    if 0 < f then
      let tp := ((p :: ps).getLast (List.cons_ne_nil p ps) - f) / f * 100
      (if 3 < tp then "up" else if tp < -3 then "down" else "stable", tp)
    else ("stable", 0)
  | _ => ("stable", 0)

/-- The statistics fields of `get_price_stats` that aggregate prices
(presentation fields — `records_count`, `min_date`/`max_date`, the raw
`records`/`prices` echoes and the half-even rounding of the reported
averages — are not part of the claims and are omitted). -/
structure PriceStats where
  current_price : ℚ
  min_price : ℚ
  max_price : ℚ
  avg_price : ℚ
  trend : String
  trend_percent : ℚ
deriving DecidableEq

/-- Embedding of `get_price_stats(product_id, days)` after the history pull; `none` is
the `has_data: False` dictionary. -/
def getPriceStats (now : ℚ) (records : List FDRecord) : Option PriceStats :=
  if records = [] then none
  else
    match (records.filter (fun r => 0 < r.price)).map (fun r => r.price) with
    | [] => none
    | p :: ps =>
      some { current_price := (p :: ps).getLast (List.cons_ne_nil p ps),
             min_price := pyMin (p :: ps),
             max_price := pyMax (p :: ps),
             avg_price := (p :: ps).sum / ((p :: ps).length : ℚ),
             trend := (trendOf now records).1,
             trend_percent := (trendOf now records).2 }

theorem filter_pos_idem (records : List FDRecord) :
    (records.filter (fun r => 0 < r.price)).filter (fun r => 0 < r.price)
      = records.filter (fun r => 0 < r.price) := by
  rw [List.filter_filter]
  apply List.filter_congr
  intro r _
  cases h : decide (0 < r.price) <;> simp [h]

theorem recent_of_filter_pos (now : ℚ) (records : List FDRecord) :
    ((records.filter (fun r => 0 < r.price)).filter
        (fun r => now - 30 ≤ r.recorded_at)).filter (fun r => 0 < r.price)
      = (records.filter (fun r => now - 30 ≤ r.recorded_at)).filter
          (fun r => 0 < r.price) := by
  simp only [List.filter_filter]
  apply List.filter_congr
  intro r _
  cases h1 : decide (0 < r.price) <;>
    cases h2 : decide (now - 30 ≤ r.recorded_at) <;> simp [h1, h2]

theorem trendOf_filter_pos (now : ℚ) (records : List FDRecord) :
    trendOf now (records.filter (fun r => 0 < r.price)) = trendOf now records := by
  unfold trendOf
  simp only [recent_of_filter_pos]

/-- The single-pass filter of the claim's wording ("snapshots of the last
30 days with positive price") agrees with the code's two filters. -/
theorem recent_single_filter (now : ℚ) (records : List FDRecord) :
    ((records.filter (fun r => now - 30 ≤ r.recorded_at)).filter
        (fun r => 0 < r.price)).map (fun r => r.price)
      = (records.filter
          (fun r => now - 30 ≤ r.recorded_at ∧ 0 < r.price)).map
            (fun r => r.price) := by
  congr 1
  rw [List.filter_filter]
  apply List.filter_congr
  intro r _
  rw [Bool.decide_and]
  cases h1 : decide (0 < r.price) <;>
    cases h2 : decide (now - 30 ≤ r.recorded_at) <;> simp [h1, h2]

/-- C4: the trend is computed only over the snapshots of the last 30 days
with positive price: with fewer than 2 such snapshots the trend is `stable`
with percent 0; otherwise `trend_percent = (last - first) / first * 100`
over the chronologically first and last such snapshot, classified `up`
above 3, `down` below −3, `stable` otherwise; two snapshots 100 then 110
give up/10, 100 then 97 give stable, 100 then 96 give down. -/
theorem C4_trend_window :
    (∀ (now : ℚ) (records : List FDRecord),
      ((records.filter (fun r => now - 30 ≤ r.recorded_at ∧ 0 < r.price)).map
          (fun r => r.price)).length < 2 →
      trendOf now records = ("stable", 0)) ∧
    (∀ (now : ℚ) (records : List FDRecord) (f p : ℚ) (ps : List ℚ),
      (records.filter (fun r => now - 30 ≤ r.recorded_at ∧ 0 < r.price)).map
          (fun r => r.price) = f :: p :: ps →
      trendOf now records =
        (if 3 < ((p :: ps).getLast (List.cons_ne_nil p ps) - f) / f * 100
         then "up"
         else if ((p :: ps).getLast (List.cons_ne_nil p ps) - f) / f * 100 < -3
         then "down"
         else "stable",
         ((p :: ps).getLast (List.cons_ne_nil p ps) - f) / f * 100)) ∧
    trendOf 30 [⟨100, 5⟩, ⟨110, 10⟩] = ("up", 10) ∧
    trendOf 30 [⟨100, 5⟩, ⟨97, 10⟩] = ("stable", -3) ∧
    trendOf 30 [⟨100, 5⟩, ⟨96, 10⟩] = ("down", -4) := by
  refine ⟨?_, ?_, ?_, ?_, ?_⟩
  · intro now records hlen
    simp only [trendOf]
    rw [recent_single_filter]
    cases hq : (records.filter
        (fun r => now - 30 ≤ r.recorded_at ∧ 0 < r.price)).map
          (fun r => r.price) with
    | nil => rfl
    | cons f rest =>
      cases rest with
      | nil => rfl
      | cons p ps =>
        rw [hq] at hlen
        simp only [List.length_cons] at hlen
        omega
  · intro now records f p ps hq
    have hall : ∀ x ∈ (records.filter
        (fun r => now - 30 ≤ r.recorded_at ∧ 0 < r.price)).map
          (fun r => r.price), 0 < x := by
      intro x hx
      simp only [List.mem_map, List.mem_filter] at hx
      obtain ⟨r, ⟨-, hr⟩, rfl⟩ := hx
      exact (of_decide_eq_true hr).2
    have hf : 0 < f := hall f (by rw [hq]; simp)
    simp only [trendOf, recent_single_filter, hq]
    rw [if_pos hf]
  · norm_num [trendOf, List.filter, List.getLast]
  · norm_num [trendOf, List.filter, List.getLast]
  · norm_num [trendOf, List.filter, List.getLast]

/-- C4 witness: the classification conjunct applied to two snapshots at
prices 100 then 110 inside the 30-day sub-window. -/
theorem C4_trend_window_witness :
    trendOf 30 [⟨100, 5⟩, ⟨110, 10⟩] =
      (if 3 < (([110] : List ℚ).getLast (List.cons_ne_nil 110 []) - 100)
              / 100 * 100
       then "up"
       else if (([110] : List ℚ).getLast (List.cons_ne_nil 110 []) - 100)
              / 100 * 100 < -3
       then "down"
       else "stable",
       (([110] : List ℚ).getLast (List.cons_ne_nil 110 []) - 100) / 100 * 100) :=
  C4_trend_window.2.1 30 [⟨100, 5⟩, ⟨110, 10⟩] 100 110 []
    (by simp [List.filter])

/-- The persistence effect of `fetch_and_save_price` on a product's price
ledger: the argument is the scraped dict (`none` = scrape failed) carrying
its `current_price` field (`none` = key absent, read as the `.get` default
0); a price record is appended only when that price is positive. -/
def fetchAndSaveLedger (pf : Option (Option ℚ)) (ledger : List ℚ) : List ℚ :=
  match pf with
  | none => ledger
  | some cp =>
    let current_price := cp.getD 0
    if 0 < current_price then ledger ++ [current_price] else ledger

/-- The persistence effect of the scheduler sweep's fetch loop
(`monitor_scheduler.py` lines 43-57) on one product's ledger: the record is
appended only behind the `data and data.get("current_price", 0) > 0`
guard. -/
def schedulerIngestLedger (pf : Option (Option ℚ)) (ledger : List ℚ) : List ℚ :=
  match pf with
  | some cp => if 0 < cp.getD 0 then ledger ++ [cp.getD 0] else ledger
  | none => ledger

/-- C9: snapshots with non-positive price are silently dropped on both
ingestion paths — nothing is appended for them, and everything appended is
positive — and stored non-positive snapshots are never counted toward the
statistics: the stats of a history equal the stats of its positive-price
sub-history. -/
theorem C9_nonpositive_snapshots_dropped :
    (∀ (pf : Option (Option ℚ)) (ledger : List ℚ),
      ∀ q ∈ fetchAndSaveLedger pf ledger, q ∈ ledger ∨ 0 < q) ∧
    (∀ (cp : Option ℚ) (ledger : List ℚ), cp.getD 0 ≤ 0 →
      fetchAndSaveLedger (some cp) ledger = ledger) ∧
    (∀ (pf : Option (Option ℚ)) (ledger : List ℚ),
      ∀ q ∈ schedulerIngestLedger pf ledger, q ∈ ledger ∨ 0 < q) ∧
    (∀ (cp : Option ℚ) (ledger : List ℚ), cp.getD 0 ≤ 0 →
      schedulerIngestLedger (some cp) ledger = ledger) ∧
    (∀ (now : ℚ) (records : List FDRecord),
      getPriceStats now (records.filter (fun r => 0 < r.price)) =
        getPriceStats now records) := by
  refine ⟨?_, ?_, ?_, ?_, ?_⟩
  · intro pf ledger q hq
    cases pf with
    | none => exact Or.inl hq
    | some cp =>
      by_cases hpos : 0 < cp.getD 0
      · simp only [fetchAndSaveLedger, if_pos hpos, List.mem_append,
          List.mem_singleton] at hq
        rcases hq with h | h
        · exact Or.inl h
        · exact Or.inr (h ▸ hpos)
      · simp only [fetchAndSaveLedger, if_neg hpos] at hq
        exact Or.inl hq
  · intro cp ledger h
    simp only [fetchAndSaveLedger]
    rw [if_neg (not_lt.mpr h)]
  · intro pf ledger q hq
    cases pf with
    | none => exact Or.inl hq
    | some cp =>
      by_cases hpos : 0 < cp.getD 0
      · simp only [schedulerIngestLedger, if_pos hpos, List.mem_append,
          List.mem_singleton] at hq
        rcases hq with h | h
        · exact Or.inl h
        · exact Or.inr (h ▸ hpos)
      · simp only [schedulerIngestLedger, if_neg hpos] at hq
        exact Or.inl hq
  · intro cp ledger h
    simp only [schedulerIngestLedger]
    rw [if_neg (not_lt.mpr h)]
  · intro now records
    by_cases hrec : records = []
    · subst hrec; rfl
    · unfold getPriceStats
      rw [if_neg hrec]
      by_cases hfe : records.filter (fun r => 0 < r.price) = []
      · rw [if_pos hfe, hfe]
        simp
      · rw [if_neg hfe]
        simp only [filter_pos_idem, trendOf_filter_pos]

/-- C9 witness: a scraped snapshot with price 0 appends nothing to a ledger
holding one record at price 5. -/
theorem C9_nonpositive_snapshots_dropped_witness :
    fetchAndSaveLedger (some (some 0)) [5] = [5] :=
  C9_nonpositive_snapshots_dropped.2.1 (some 0) [5] (by norm_num)

/-! ## Monitoring scheduler (`bot/services/monitor_scheduler.py`) -/

/-- Python truthiness of an optional float: `None` and `0` are falsy;
returns the value when truthy. -/
def truthy (x : Option ℚ) : Option ℚ :=
  match x with
  | some v => if v = 0 then none else some v
  | none => none

/-- The monitor fields read by the notification loop. -/
structure MonitorState where
  notify_any_drop : Bool
  target_price : Option ℚ
  last_notified_price : Option ℚ
deriving DecidableEq

/-- One sweep observation for a monitor's product: the product's cached
price from before the sweep (`product.current_price` of the row joined at
the start of the sweep), the freshly fetched price, and whether
`bot.send_message` succeeds. -/
structure SweepObs where
  old_price : Option ℚ
  new_price : ℚ
  dispatch_ok : Bool
deriving DecidableEq

/-- Python `old_price = product.current_price or new_price`. -/
def oldPriceOf (o : SweepObs) : ℚ :=
  match truthy o.old_price with
  | some v => v
  | none => o.new_price

/-- The two trigger blocks of the notification loop (lines 88-126): `none`
when a `continue` skips the monitor, otherwise `some should_notify`. -/
def triggerBlocks (m : MonitorState) (oldp newp : ℚ) : Option Bool :=
  let step1 :=
    if m.notify_any_drop = true ∧ newp < oldp then
      match truthy m.last_notified_price with
      | some v => if v ≤ newp then none else some true
      | none => some true
    else some false
  match step1 with
  | none => none
  | some s1 =>
    match truthy m.target_price with
    | some t =>
      if newp ≤ t then
        match truthy m.last_notified_price with
        | some v => if v ≤ newp then none else some true
        | none => some true
      else some s1
    | none => some s1

/-- One monitor's pass through the notification loop: whether a
notification went out, and the committed monitor row
(`update_monitor_notified` runs only after a successful send; a failed send
is caught and commits nothing). -/
def evalMonitor (m : MonitorState) (o : SweepObs) : Bool × MonitorState :=
  match triggerBlocks m (oldPriceOf o) o.new_price with
  | none => (false, m)
  | some should =>
    if should then
      if o.dispatch_ok then
        (true, { m with last_notified_price := some o.new_price })
      else (false, m)
    else (false, m)

/-- The prices at which notifications go out over successive sweeps. -/
def runNotified (m : MonitorState) : List SweepObs → List ℚ
  | [] => []
  | o :: rest =>
    match evalMonitor m o with
    | (true, next) => o.new_price :: runNotified next rest
    | (false, next) => runNotified next rest

theorem triggerBlocks_ratchet (m : MonitorState) (oldp newp v : ℚ)
    (hv : truthy m.last_notified_price = some v) (hle : v ≤ newp) :
    triggerBlocks m oldp newp = none ∨ triggerBlocks m oldp newp = some false := by
  by_cases h1 : m.notify_any_drop = true ∧ newp < oldp
  · exact Or.inl (by simp [triggerBlocks, h1, hv, hle])
  · cases ht : truthy m.target_price with
    | none => exact Or.inr (by simp [triggerBlocks, h1, ht])
    | some t =>
      by_cases h2 : newp ≤ t
      · exact Or.inl (by simp [triggerBlocks, h1, ht, h2, hv, hle])
      · exact Or.inr (by simp [triggerBlocks, h1, ht, h2])

theorem triggerBlocks_true (m : MonitorState) (oldp newp : ℚ)
    (h : triggerBlocks m oldp newp = some true) :
    (truthy m.last_notified_price = none ∨
      ∃ v, truthy m.last_notified_price = some v ∧ newp < v) ∧
    ((m.notify_any_drop = true ∧ newp < oldp) ∨
      (∃ t, truthy m.target_price = some t ∧ newp ≤ t)) := by
  by_cases h1 : m.notify_any_drop = true ∧ newp < oldp
  · refine ⟨?_, Or.inl h1⟩
    cases hlnp : truthy m.last_notified_price with
    | none => exact Or.inl rfl
    | some v =>
      by_cases hr : v ≤ newp
      · simp [triggerBlocks, h1, hlnp, hr] at h
      · exact Or.inr ⟨v, rfl, not_le.mp hr⟩
  · cases ht : truthy m.target_price with
    | none => simp [triggerBlocks, h1, ht] at h
    | some t =>
      by_cases h2 : newp ≤ t
      · refine ⟨?_, Or.inr ⟨t, rfl, h2⟩⟩
        cases hlnp : truthy m.last_notified_price with
        | none => exact Or.inl rfl
        | some v =>
          by_cases hr : v ≤ newp
          · simp [triggerBlocks, h1, ht, h2, hlnp, hr] at h
          · exact Or.inr ⟨v, rfl, not_le.mp hr⟩
      · simp [triggerBlocks, h1, ht, h2] at h

theorem evalMonitor_dispatch_fail (m : MonitorState) (o : SweepObs)
    (hfail : o.dispatch_ok = false) : evalMonitor m o = (false, m) := by
  unfold evalMonitor
  cases h : triggerBlocks m (oldPriceOf o) o.new_price with
  | none => rfl
  | some should =>
    cases should with
    | false => rfl
    | true => simp [hfail]

theorem evalMonitor_state_of_false (m : MonitorState) (o : SweepObs)
    (hff : (evalMonitor m o).1 = false) : (evalMonitor m o).2 = m := by
  unfold evalMonitor at *
  cases h : triggerBlocks m (oldPriceOf o) o.new_price with
  | none => rfl
  | some should =>
    rw [h] at hff
    cases should with
    | false => rfl
    | true =>
      by_cases hd : o.dispatch_ok
      · simp [hd] at hff
      · simp [hd]

theorem evalMonitor_true_facts (m : MonitorState) (o : SweepObs)
    (hb : (evalMonitor m o).1 = true) :
    o.dispatch_ok = true ∧
    (evalMonitor m o).2.last_notified_price = some o.new_price ∧
    (truthy m.last_notified_price = none ∨
      ∃ v, truthy m.last_notified_price = some v ∧ o.new_price < v) ∧
    ((m.notify_any_drop = true ∧ o.new_price < oldPriceOf o) ∨
      (∃ t, truthy m.target_price = some t ∧ o.new_price ≤ t)) := by
  unfold evalMonitor at *
  cases h : triggerBlocks m (oldPriceOf o) o.new_price with
  | none => rw [h] at hb; simp at hb
  | some should =>
    rw [h] at hb
    cases should with
    | false => simp at hb
    | true =>
      by_cases hd : o.dispatch_ok
      · obtain ⟨hr, htr⟩ := triggerBlocks_true m (oldPriceOf o) o.new_price h
        exact ⟨hd, by simp [hd], hr, htr⟩
      · simp [hd] at hb

theorem evalMonitor_skip_ge (m : MonitorState) (o : SweepObs) (v : ℚ)
    (hv : truthy m.last_notified_price = some v) (hle : v ≤ o.new_price) :
    evalMonitor m o = (false, m) := by
  unfold evalMonitor
  rcases triggerBlocks_ratchet m (oldPriceOf o) o.new_price v hv hle with h | h
  · rw [h]
  · rw [h]; simp

theorem runNotified_lt (obs : List SweepObs) : ∀ (m : MonitorState) (v : ℚ),
    (∀ o ∈ obs, 0 < o.new_price) →
    truthy m.last_notified_price = some v →
    ∀ q ∈ runNotified m obs, q < v := by
  induction obs with
  | nil => intro m v _ _ q hq; simp [runNotified] at hq
  | cons o rest ih =>
    intro m v hall hv q hq
    have hall' : ∀ o2 ∈ rest, 0 < o2.new_price := fun o2 h2 => hall o2 (by simp [h2])
    simp only [runNotified] at hq
    cases heval : evalMonitor m o with
    | mk b next =>
      rw [heval] at hq
      cases b with
      | false =>
        have hnext : next = m := by
          have := evalMonitor_state_of_false m o (by rw [heval])
          rw [heval] at this; exact this
        rw [hnext] at hq
        exact ih m v hall' hv q hq
      | true =>
        obtain ⟨-, hlnp, hr, -⟩ := evalMonitor_true_facts m o (by rw [heval])
        rw [heval] at hlnp
        have hnew_lt : o.new_price < v := by
          rcases hr with hnone | ⟨v2, hv2, hlt⟩
          · rw [hv] at hnone; cases hnone
          · rw [hv] at hv2
            injection hv2 with e
            exact e ▸ hlt
        simp only [List.mem_cons] at hq
        rcases hq with rfl | hq
        · exact hnew_lt
        · have hpos : 0 < o.new_price := hall o (by simp)
          have htr : truthy next.last_notified_price = some o.new_price := by
            rw [hlnp]; simp [truthy, ne_of_gt hpos]
          exact lt_trans (ih next o.new_price hall' htr q hq) hnew_lt

theorem runNotified_chain (obs : List SweepObs) : ∀ m : MonitorState,
    (∀ o ∈ obs, 0 < o.new_price) →
    List.Chain' (fun a b => b < a) (runNotified m obs) := by
  induction obs with
  | nil => intro m _; simp [runNotified]
  | cons o rest ih =>
    intro m hall
    have hall' : ∀ o2 ∈ rest, 0 < o2.new_price := fun o2 h2 => hall o2 (by simp [h2])
    simp only [runNotified]
    cases heval : evalMonitor m o with
    | mk b next =>
      cases b with
      | false => exact ih next hall'
      | true =>
        obtain ⟨-, hlnp, -, -⟩ := evalMonitor_true_facts m o (by rw [heval])
        rw [heval] at hlnp
        have hpos : 0 < o.new_price := hall o (by simp)
        have htr : truthy next.last_notified_price = some o.new_price := by
          rw [hlnp]; simp [truthy, ne_of_gt hpos]
        apply List.chain'_cons'.mpr
        refine ⟨?_, ih next hall'⟩
        intro y hy
        exact runNotified_lt rest next o.new_price hall' htr y
          (List.mem_of_mem_head? hy)

/-- C3: `last_notified_price` moves (to the new price) only on a successful
dispatch; a dispatch goes out only when a trigger fires together with the
ratchet (`last_notified_price` unset, or the new price strictly below it);
a failed dispatch leaves the state unchanged for the next sweep to retry; a
sweep at a price at or above the last notified price never notifies; and
over any run of sweeps with positive fetched prices the notified prices
strictly decrease. -/
theorem C3_ratchet_invariant :
    (∀ (m : MonitorState) (o : SweepObs), o.dispatch_ok = false →
      evalMonitor m o = (false, m)) ∧
    (∀ (m : MonitorState) (o : SweepObs), (evalMonitor m o).1 = false →
      (evalMonitor m o).2 = m) ∧
    (∀ (m : MonitorState) (o : SweepObs) (v : ℚ),
      truthy m.last_notified_price = some v → v ≤ o.new_price →
      evalMonitor m o = (false, m)) ∧
    (∀ (m : MonitorState) (o : SweepObs), (evalMonitor m o).1 = true →
      o.dispatch_ok = true ∧
      (evalMonitor m o).2.last_notified_price = some o.new_price ∧
      (truthy m.last_notified_price = none ∨
        ∃ v, truthy m.last_notified_price = some v ∧ o.new_price < v) ∧
      ((m.notify_any_drop = true ∧ o.new_price < oldPriceOf o) ∨
        (∃ t, truthy m.target_price = some t ∧ o.new_price ≤ t))) ∧
    (∀ (m : MonitorState) (obs : List SweepObs),
      (∀ o ∈ obs, 0 < o.new_price) →
      List.Chain' (fun a b => b < a) (runNotified m obs)) ∧
    (∀ (m : MonitorState) (oldp newp : ℚ),
      triggerBlocks m oldp newp = some true →
      (truthy m.last_notified_price = none ∨
        ∃ v, truthy m.last_notified_price = some v ∧ newp < v) ∧
      ((m.notify_any_drop = true ∧ newp < oldp) ∨
        (∃ t, truthy m.target_price = some t ∧ newp ≤ t))) :=
  ⟨evalMonitor_dispatch_fail, evalMonitor_state_of_false, evalMonitor_skip_ge,
   evalMonitor_true_facts, fun m obs h => runNotified_chain obs m h,
   triggerBlocks_true⟩

/-- C3 witness: a monitor with `last_notified_price = 90` and
`notify_any_drop = true` observing an unchanged price of 90 does not notify
and keeps its state. -/
theorem C3_ratchet_invariant_witness :
    evalMonitor ⟨true, none, some 90⟩ ⟨some 100, 90, true⟩ =
      (false, ⟨true, none, some 90⟩) :=
  C3_ratchet_invariant.2.2.1 ⟨true, none, some 90⟩ ⟨some 100, 90, true⟩ 90
    (by norm_num [truthy]) le_rfl

/-- The fetch loop of `check_monitored_prices` (lines 35-41): walks the
monitor rows in order, skipping products already in `product_ids_checked`,
and returns the product ids passed to the Fetcher, in order. -/
def fetchLoop (checked : List ℕ) : List ℕ → List ℕ
  | [] => []
  | pid :: rest =>
    if pid ∈ checked then fetchLoop checked rest
    else pid :: fetchLoop (pid :: checked) rest

/-- Product ids fetched in one sweep, from the monitors' product ids. -/
def sweepFetches (productIds : List ℕ) : List ℕ := fetchLoop [] productIds

/-- The notification loop (lines 75-81): every monitor row is visited, and
exactly those whose product has a fresh price are evaluated. -/
def sweepEvaluations (monitors : List (ℕ × ℕ)) (priceOf : ℕ → Option ℚ) :
    List (ℕ × ℕ) :=
  monitors.filter (fun mp => (priceOf mp.2).isSome)

theorem fetchLoop_mem (l : List ℕ) : ∀ (checked : List ℕ) (p : ℕ),
    p ∈ fetchLoop checked l ↔ p ∈ l ∧ p ∉ checked := by
  induction l with
  | nil => intro checked p; simp [fetchLoop]
  | cons q rest ih =>
    intro checked p
    by_cases hq : q ∈ checked
    · simp only [fetchLoop, if_pos hq, ih, List.mem_cons]
      constructor
      · rintro ⟨hp, hnc⟩; exact ⟨Or.inr hp, hnc⟩
      · rintro ⟨hp | hp, hnc⟩
        · exact absurd (hp ▸ hq) hnc
        · exact ⟨hp, hnc⟩
    · simp only [fetchLoop, if_neg hq, List.mem_cons, ih]
      constructor
      · rintro (rfl | ⟨hp, hnc⟩)
        · exact ⟨Or.inl rfl, hq⟩
        · refine ⟨Or.inr hp, fun hc => hnc ?_⟩
          simp [hc]
      · rintro ⟨hp | hp, hnc⟩
        · exact Or.inl hp
        · by_cases hpq : p = q
          · exact Or.inl hpq
          · refine Or.inr ⟨hp, fun hc => ?_⟩
            simp only [List.mem_cons] at hc
            rcases hc with hc | hc
            · exact hpq hc
            · exact hnc hc

theorem fetchLoop_nodup (l : List ℕ) : ∀ checked : List ℕ,
    (fetchLoop checked l).Nodup := by
  induction l with
  | nil => intro checked; simp [fetchLoop]
  | cons q rest ih =>
    intro checked
    by_cases hq : q ∈ checked
    · simp only [fetchLoop, if_pos hq]; exact ih checked
    · simp only [fetchLoop, if_neg hq]
      refine List.nodup_cons.mpr ⟨fun hmem => ?_, ih _⟩
      exact ((fetchLoop_mem rest _ q).mp hmem).2 (by simp)

/-- C5: the fetched-product list of a sweep is duplicate-free and covers
exactly the monitored products — so each monitored product is fetched
exactly once per sweep however many subscribers watch it — while the
notification loop evaluates every monitor row whose product has a fresh
price: two distinct subscribers on one product give one fetch and two
evaluations. -/
theorem C5_dedup_per_sweep :
    (∀ monitors : List (ℕ × ℕ),
      (sweepFetches (monitors.map Prod.snd)).Nodup) ∧
    (∀ (monitors : List (ℕ × ℕ)) (p : ℕ),
      p ∈ sweepFetches (monitors.map Prod.snd) ↔ p ∈ monitors.map Prod.snd) ∧
    (∀ (monitors : List (ℕ × ℕ)) (p : ℕ), p ∈ monitors.map Prod.snd →
      (sweepFetches (monitors.map Prod.snd)).count p = 1) ∧
    (∀ (u1 u2 pid : ℕ) (priceOf : ℕ → Option ℚ), u1 ≠ u2 →
      (priceOf pid).isSome = true →
      sweepFetches ([(u1, pid), (u2, pid)].map Prod.snd) = [pid] ∧
      sweepEvaluations [(u1, pid), (u2, pid)] priceOf =
        [(u1, pid), (u2, pid)]) := by
  refine ⟨?_, ?_, ?_, ?_⟩
  · intro monitors
    exact fetchLoop_nodup _ []
  · intro monitors p
    rw [sweepFetches, fetchLoop_mem]
    simp
  · intro monitors p hp
    exact List.count_eq_one_of_mem (fetchLoop_nodup _ [])
      (by rw [sweepFetches, fetchLoop_mem]; simp [hp])
  · intro u1 u2 pid priceOf _ hsome
    constructor
    · simp [sweepFetches, fetchLoop]
    · simp [sweepEvaluations, List.filter, hsome]

/-- C5 witness: subscribers 1 and 2 both watching product 7 — one fetch of
product 7, both monitors evaluated. -/
theorem C5_dedup_per_sweep_witness :
    sweepFetches ([(1, 7), (2, 7)].map Prod.snd) = [7] ∧
    sweepEvaluations [(1, 7), (2, 7)] (fun _ => some 10) = [(1, 7), (2, 7)] :=
  C5_dedup_per_sweep.2.2.2 1 2 7 (fun _ => some 10) (by norm_num) rfl

/-! ## Monitor registry (`database/db.py`, `Database.add_monitor`) -/

/-- A `monitored_products` row. -/
structure MonitorRow where
  user_id : ℕ
  product_id : ℕ
  target_price : Option ℚ
  notify_any_drop : Bool
  last_notified_price : Option ℚ
  is_active : Bool
deriving DecidableEq

/-- Embedding of `Database.add_monitor(user_id, product_id, target_price)`: `user` is the
stored `users` row for `user_id` (`none` = not found), `rows` the
`monitored_products` table; returns the success flag and the committed
table.  The capacity check runs before the existing-row lookup, exactly as
in the source. -/
def addMonitor (user : Option DBUser) (now : DateTime) (rows : List MonitorRow)
    (uid pid : ℕ) (target : Option ℚ) : Bool × List MonitorRow :=
  match user with
  | none => (false, rows)
  | some u =>
    let maxItems := monitorItems (activePlan u now)
    if maxItems = 0 then (false, rows)
    else
      let currentCount :=
        (rows.filter (fun r => r.user_id = uid ∧ r.is_active = true)).length
      if maxItems ≤ currentCount then (false, rows)
      else
        match rows.find? (fun r => r.user_id = uid ∧ r.product_id = pid) with
        | some _ =>
          (true, rows.map (fun r =>
            if r.user_id = uid ∧ r.product_id = pid then
              { r with is_active := true, target_price := target }
            else r))
        | none =>
          (true, rows ++ [{ user_id := uid, product_id := pid,
                            target_price := target, notify_any_drop := true,
                            last_notified_price := none, is_active := true }])

/-- C6 (amended): re-adding a (subscriber, product) pair that already has a
row (active or inactive) — when the subscriber's active tier has a positive
monitor limit and the count of currently-active monitors is strictly below
it — reactivates and updates the existing row in place (sets it active with
the new target price) and reports success: no duplicate row appears and all
other rows survive unchanged. -/
theorem C6_idempotent_readd (user : DBUser) (now : DateTime)
    (rows : List MonitorRow) (uid pid : ℕ) (target : Option ℚ)
    (hlimit : 0 < monitorItems (activePlan user now))
    (hcount :
      (rows.filter (fun r => r.user_id = uid ∧ r.is_active = true)).length
        < monitorItems (activePlan user now))
    (hex : ∃ r ∈ rows, r.user_id = uid ∧ r.product_id = pid) :
    (addMonitor (some user) now rows uid pid target).1 = true ∧
    (addMonitor (some user) now rows uid pid target).2.length = rows.length ∧
    (∀ r ∈ (addMonitor (some user) now rows uid pid target).2,
      r.user_id = uid → r.product_id = pid →
      r.is_active = true ∧ r.target_price = target) ∧
    (∀ r ∈ rows, ¬(r.user_id = uid ∧ r.product_id = pid) →
      r ∈ (addMonitor (some user) now rows uid pid target).2) := by
  have hfind :
      (rows.find? (fun r => r.user_id = uid ∧ r.product_id = pid)).isSome
        = true := by
    rw [List.find?_isSome]
    obtain ⟨r, hr, h1, h2⟩ := hex
    exact ⟨r, hr, by simp [h1, h2]⟩
  obtain ⟨r0, hr0⟩ := Option.isSome_iff_exists.mp hfind
  simp only [addMonitor]
  rw [if_neg (by omega), if_neg (not_le.mpr hcount), hr0]
  refine ⟨rfl, by simp, ?_, ?_⟩
  · intro r hr h1 h2
    simp only [List.mem_map] at hr
    obtain ⟨r2, hr2, heq⟩ := hr
    by_cases hc : r2.user_id = uid ∧ r2.product_id = pid
    · rw [if_pos hc] at heq
      rw [← heq]
      exact ⟨rfl, rfl⟩
    · rw [if_neg hc] at heq
      rw [← heq] at h1 h2
      exact absurd ⟨h1, h2⟩ hc
  · intro r hr hnc
    simp only [List.mem_map]
    exact ⟨r, hr, by rw [if_neg hnc]⟩

/-- The concrete table of the C6 counterexample: subscriber 1 actively
monitors products 0 … 19 — exactly the PRO capacity. -/
def proRows : List MonitorRow :=
  (List.range 20).map (fun i =>
    { user_id := 1, product_id := i, target_price := none,
      notify_any_drop := true, last_notified_price := none, is_active := true })

/-- C6 counterexample: a PRO subscriber (positive monitor limit 20) with 20
active monitors re-adds the pair for product 0, which already has a row —
the claim demands an in-place update and success, but the capacity check
runs before the existing-row lookup and the call is rejected, leaving the
table unchanged. -/
theorem C6_claim_counterexample :
    0 < monitorItems (activePlan
      { plan := .PRO, plan_expires_at := some ⟨1000, 0⟩, checks_today := 0,
        checks_reset_date := none } ⟨0, 0⟩) ∧
    (∃ r ∈ proRows, r.user_id = 1 ∧ r.product_id = 0) ∧
    addMonitor
        (some { plan := .PRO, plan_expires_at := some ⟨1000, 0⟩,
                checks_today := 0, checks_reset_date := none })
        ⟨0, 0⟩ proRows 1 0 none
      = (false, proRows) := by
  refine ⟨by decide, ⟨proRows.head (by decide), by decide⟩, by decide⟩

/-- C6 witness: a PRO subscriber with a single inactive row for the pair
(1, 5) re-adds it with target 50 — success, row reactivated in place. -/
theorem C6_idempotent_readd_witness :
    (addMonitor
        (some { plan := .PRO, plan_expires_at := some ⟨1000, 0⟩,
                checks_today := 0, checks_reset_date := none })
        ⟨0, 0⟩ [{ user_id := 1, product_id := 5, target_price := none,
                  notify_any_drop := true, last_notified_price := none,
                  is_active := false }] 1 5 (some 50)).1 = true ∧
    (addMonitor
        (some { plan := .PRO, plan_expires_at := some ⟨1000, 0⟩,
                checks_today := 0, checks_reset_date := none })
        ⟨0, 0⟩ [{ user_id := 1, product_id := 5, target_price := none,
                  notify_any_drop := true, last_notified_price := none,
                  is_active := false }] 1 5 (some 50)).2.length =
      [({ user_id := 1, product_id := 5, target_price := none,
          notify_any_drop := true, last_notified_price := none,
          is_active := false } : MonitorRow)].length ∧
    (∀ r ∈ (addMonitor
        (some { plan := .PRO, plan_expires_at := some ⟨1000, 0⟩,
                checks_today := 0, checks_reset_date := none })
        ⟨0, 0⟩ [{ user_id := 1, product_id := 5, target_price := none,
                  notify_any_drop := true, last_notified_price := none,
                  is_active := false }] 1 5 (some 50)).2,
      r.user_id = 1 → r.product_id = 5 →
      r.is_active = true ∧ r.target_price = some 50) ∧
    (∀ r ∈ [({ user_id := 1, product_id := 5, target_price := none,
               notify_any_drop := true, last_notified_price := none,
               is_active := false } : MonitorRow)],
      ¬(r.user_id = 1 ∧ r.product_id = 5) →
      r ∈ (addMonitor
        (some { plan := .PRO, plan_expires_at := some ⟨1000, 0⟩,
                checks_today := 0, checks_reset_date := none })
        ⟨0, 0⟩ [{ user_id := 1, product_id := 5, target_price := none,
                  notify_any_drop := true, last_notified_price := none,
                  is_active := false }] 1 5 (some 50)).2) :=
  C6_idempotent_readd
    { plan := .PRO, plan_expires_at := some ⟨1000, 0⟩, checks_today := 0,
      checks_reset_date := none } ⟨0, 0⟩
    [{ user_id := 1, product_id := 5, target_price := none,
       notify_any_drop := true, last_notified_price := none,
       is_active := false }] 1 5 (some 50)
    (by decide) (by decide)
    ⟨{ user_id := 1, product_id := 5, target_price := none,
       notify_any_drop := true, last_notified_price := none,
       is_active := false }, by decide, rfl, rfl⟩

end PriceGhost
